import Mathlib

/-!
Verification development for the cveda dataset auditor.

This file embeds the canonicalization engine of `cveda/data_io.py`
(image discovery, COCO / VOC / YOLO parsing, per-image record building,
`build_index`) and the feature orchestrator of `cveda/api.py`
(`_index_fingerprint`, cache keys, `_feature_worker`, the parallel
dispatch/collect loop of `CVEDA.run_audit`) as executable Lean
definitions, and proves the documented behavioural properties.

Modelling conventions:
* Python numbers are modelled by `Rat` (the inputs appearing in the
  properties are exact decimals, on which Python float arithmetic is
  exact).
* Python dicts that are used as ordered key/value maps are modelled by
  association lists with Python's insertion-order update semantics
  (`dictInsert`).
* A raised Python exception is modelled by `Except String` or, where the
  source catches it and stores the message, by an explicit error field.
* The SHA-256 digest is never computed structurally by the source, only
  applied to a serialized string; all statements are therefore proved
  for an arbitrary digest function `hash : String → String`.
-/

/-- JSON-like Python values as they flow through the auditor. -/
inductive JVal where
  | null
  | bool (b : Bool)
  | int (n : Int)
  | num (q : Rat)
  | str (s : String)
  | arr (elems : List JVal)
  | obj (fields : List (String × JVal))

/-- Python truthiness of a `JVal`, as used by `if raw_bbox:` style tests. -/
def jvalTruthy : JVal → Bool
  | .null => false
  | .bool b => b
  | .int n => n != 0
  | .num q => q != 0
  | .str s => s != ""
  | .arr l => !l.isEmpty
  | .obj l => !l.isEmpty

/-- Whether a `JVal` is a string or `None`; the canonical `class` field is
documented as `string|null`. -/
def isStrOrNull : JVal → Bool
  | .str _ => true
  | .null => true
  | _ => false

/-- Digits of a decimal literal folded into a natural number. -/
def digitsToNat (ds : List Char) : Nat :=
  ds.foldl (fun acc c => acc * 10 + (c.toNat - '0'.toNat)) 0

/-- Model of Python `float(s)` on plain decimal literals (optional sign,
digits, optional fractional part).  Exponents and special values are not
needed by any property considered here. -/
def parseDecimal (s : String) : Option Rat :=
  let signed : Rat × List Char :=
    match s.toList with
    | '-' :: rest => (-1, rest)
    | '+' :: rest => (1, rest)
    | cs => (1, cs)
  match signed.2.splitOn '.' with
  | [ip] =>
      if ip ≠ [] ∧ ip.all Char.isDigit then
        some (signed.1 * (digitsToNat ip : Rat))
      else none
  | [ip, fpart] =>
      if (ip ≠ [] ∨ fpart ≠ []) ∧ ip.all Char.isDigit ∧ fpart.all Char.isDigit then
        some (signed.1 * ((digitsToNat ip : Rat) + (digitsToNat fpart : Rat) / (10 ^ fpart.length : Nat)))
      else none
  | _ => none

/-- Model of Python `float(v)` coercion: succeeds on numbers and bools and
on numeric strings, raises (`.error`) otherwise. -/
def pyFloat : JVal → Except String Rat
  | .num q => .ok q
  | .int n => .ok (n : Rat)
  | .bool b => .ok (if b then 1 else 0)
  | .str s =>
      match parseDecimal s with
      | some q => .ok q
      | none => .error ("could not convert string to float: " ++ s)
  | .null => .error "float() argument must be a string or a real number, not NoneType"
  | .arr _ => .error "float() argument must be a string or a real number, not list"
  | .obj _ => .error "float() argument must be a string or a real number, not dict"

/-- Model of Python `str.split()` with no separator argument: split on any
whitespace run, dropping empty tokens (this also subsumes the preceding
`.strip()` in the source). -/
def pySplit (s : String) : List String :=
  (s.split (fun c => c = ' ' ∨ c = '\t' ∨ c = '\n' ∨ c = '\r')).filter (fun t => t ≠ "")

/-- An annotation dict as appended by the candidate-processing branches of
`_canonicalize_annotations_for_image`, before the final normalization
pass: `{"class": cls, "bbox": [...], "raw": raw}`.  All branches append a
Python list as `bbox`; its elements are arbitrary values until the final
pass coerces them. -/
structure RawAnn where
  cls : JVal
  bbox : List JVal
  raw : JVal

/-- A surviving annotation after the final normalization pass: the bbox
has been coerced to exactly four floats. -/
structure Ann where
  cls : JVal
  bbox : List Rat
  raw : JVal

/-- `ImageCollectionLoader._normalize_coco_bbox`: convert COCO `[x, y, w, h]`
to `[x, y, x+w, y+h]`.  A non-sequence or short input yields
`[0, 0, 0, 0]`; a sequence with a non-numeric entry among the first four
raises (the caller's per-candidate `try` absorbs it). -/
def _normalize_coco_bbox : JVal → Except String (List Rat)
  | .arr (a :: b :: c :: d :: _) =>
      match pyFloat a with
      | .error e => .error e
      | .ok x =>
        match pyFloat b with
        | .error e => .error e
        | .ok y =>
          match pyFloat c with
          | .error e => .error e
          | .ok w =>
            match pyFloat d with
            | .error e => .error e
            | .ok h => .ok [x, y, x + w, y + h]
  | _ => .ok [0, 0, 0, 0]

/-- One line of `ImageCollectionLoader._load_yolo_txt_file`: a line is split
into whitespace tokens; lines with fewer than five tokens, or whose
coordinate tokens fail float conversion, are skipped; otherwise the
normalized center box is converted to absolute corners. -/
def yoloLineAnn (w h : Rat) (line : String) : Option RawAnn :=
  match pySplit line with
  | clsTok :: t1 :: t2 :: t3 :: t4 :: _ =>
      match parseDecimal t1, parseDecimal t2, parseDecimal t3, parseDecimal t4 with
      | some cx, some cy, some bw, some bh =>
          some ⟨JVal.str clsTok,
                [JVal.num ((cx - bw / 2) * w), JVal.num ((cy - bh / 2) * h),
                 JVal.num ((cx + bw / 2) * w), JVal.num ((cy + bh / 2) * h)],
                JVal.null⟩
      | _, _, _, _ => none
  | _ => none

/-- `ImageCollectionLoader._load_yolo_txt_file` over the lines of the file,
for an image of known size. -/
def _load_yolo_txt_file (w h : Rat) (lines : List String) : List RawAnn :=
  lines.filterMap (yoloLineAnn w h)

/-- Association-list lookup modelling Python `dict` access / `.get`. -/
def assocLookup {α : Type} : List (String × α) → String → Option α
  | [], _ => none
  | (k, v) :: rest, key => if k = key then some v else assocLookup rest key

/-- The in-place update `fun p => if p.1 = k then (k, v) else p` of one
dict entry. -/
def updateEntry {α : Type} (k : String) (v : α) (p : String × α) : String × α :=
  if p.1 = k then (k, v) else p

/-- Python `d[k] = v` on an insertion-ordered dict: update in place when the
key exists (keeping its position), otherwise append. -/
def dictInsert {α : Type} (l : List (String × α)) (k : String) (v : α) : List (String × α) :=
  if k ∈ l.map Prod.fst then l.map (updateEntry k v)
  else l ++ [(k, v)]

/-- The outcome of processing one annotation candidate inside the
per-candidate `try` of `_canonicalize_annotations_for_image`: the raw
annotations appended to the record before the candidate finished or
failed, and the error message recorded when the candidate raised. -/
structure CandidateOutcome where
  anns : List RawAnn
  err : Option String

/-- A canonical per-image record (`meta.errors` and the stub-only
`meta.error` are kept as separate fields). -/
structure CanonicalRecord where
  file_name : String
  abs_path : String
  width : Option Nat
  height : Option Nat
  annotations : List Ann
  metaErrors : List String
  metaError : Option String

/-- One discovered image file together with everything `build_index` reads
about it from the filesystem: its path relative to the root, its resolved
absolute path, the defensively-read dimensions, whether the per-image
wrapper in `build_index` raised unexpectedly (`prep = some msg`), and the
outcome of each discovered annotation candidate in priority order. -/
structure ImageFile where
  relPath : String
  absPath : String
  width : Option Nat
  height : Option Nat
  prep : Option String
  candidates : List CandidateOutcome

/-- A COCO annotation entry as produced for one file by
`_load_coco_json`'s `labels_map`. -/
structure CocoRawAnn where
  category_id : JVal
  bbox : JVal
  raw : JVal

/-- The `.json` candidate branch of `_canonicalize_annotations_for_image`:
for each matched COCO entry whose raw bbox is truthy, append an
annotation whose `class` is the raw `category_id` (the category-name map
returned by `_load_coco_json` is not consulted).  A bbox that fails float
coercion raises, aborting the rest of this candidate but keeping the
annotations appended so far. -/
def cocoProcessCandidate : List CocoRawAnn → CandidateOutcome
  | [] => ⟨[], none⟩
  | a :: rest =>
      if jvalTruthy a.bbox then
        match _normalize_coco_bbox a.bbox with
        | .ok bb =>
            let r := cocoProcessCandidate rest
            ⟨⟨a.category_id, bb.map JVal.num, a.raw⟩ :: r.anns, r.err⟩
        | .error e => ⟨[], some e⟩
      else cocoProcessCandidate rest

/-- A parsed `<object>` of a VOC XML file (`_load_voc_xml_file` output). -/
structure VocObj where
  name : Option String
  bbox : List Rat

/-- The `.xml` candidate branch: each parsed object with a four-element
bbox is appended with `class` set to its (possibly missing) `name`;
the VOC parser stores `raw = None`. -/
def vocProcessCandidate (objs : List VocObj) : CandidateOutcome :=
  ⟨objs.filterMap (fun o =>
      if o.bbox.length = 4 then
        some ⟨match o.name with | some s => JVal.str s | none => JVal.null,
              o.bbox.map JVal.num, JVal.null⟩
      else none), none⟩

/-- The `.txt` (and labels-folder) candidate branch: YOLO conversion needs
both image dimensions; when either is missing the parser's internal
`try` absorbs the arithmetic failure and contributes nothing. -/
def yoloProcessCandidate (width height : Option Nat) (lines : List String) : CandidateOutcome :=
  match width, height with
  | some w, some h => ⟨_load_yolo_txt_file (w : Rat) (h : Rat) lines, none⟩
  | _, _ => ⟨[], none⟩

/-- The final normalization pass of `_canonicalize_annotations_for_image`:
keep only annotations whose bbox is a four-element sequence of
float-coercible values, casting it to floats; `class` and `raw` pass
through unchanged. -/
def finalNormalize (anns : List RawAnn) : List Ann :=
  anns.filterMap (fun a =>
    match a.bbox with
    | [b0, b1, b2, b3] =>
        match pyFloat b0, pyFloat b1, pyFloat b2, pyFloat b3 with
        | .ok x0, .ok y0, .ok x1, .ok y1 => some ⟨a.cls, [x0, y0, x1, y1], a.raw⟩
        | _, _, _, _ => none
    | _ => none)

/-- `ImageCollectionLoader._canonicalize_annotations_for_image`: process
every candidate in priority order, unioning their annotations; a
candidate that raises contributes its error message to `meta.errors`
and processing continues; the final normalization pass then filters the
collected annotations.  The function always returns a record. -/
def _canonicalize_annotations_for_image (img : ImageFile) : CanonicalRecord :=
  let collected := img.candidates.foldl
    (fun (acc : List RawAnn × List String) c =>
      (acc.1 ++ c.anns, acc.2 ++ c.err.toList)) ([], [])
  { file_name := img.relPath
    abs_path := img.absPath
    width := img.width
    height := img.height
    annotations := finalNormalize collected.1
    metaErrors := collected.2
    metaError := none }

/-- The stub record substituted by `build_index` when the per-image wrapper
raises: empty annotations, `None` dimensions, the message under
`meta.error`. -/
def stubRecord (img : ImageFile) (e : String) : CanonicalRecord :=
  { file_name := img.relPath
    abs_path := img.absPath
    width := none
    height := none
    annotations := []
    metaErrors := []
    metaError := some e }

/-- The record `build_index` stores for one image: the canonical record,
or the stub when the wrapper raised. -/
def recordFor (img : ImageFile) : CanonicalRecord :=
  match img.prep with
  | none => _canonicalize_annotations_for_image img
  | some e => stubRecord img e

/-- The body of the `for img in files:` loop of `build_index`: insert the
built record under `rec["file_name"]`, or the stub under the relative
path when the wrapper raised. -/
def buildIndexStep (idx : List (String × CanonicalRecord)) (img : ImageFile) :
    List (String × CanonicalRecord) :=
  match img.prep with
  | none =>
      let r := _canonicalize_annotations_for_image img
      dictInsert idx r.file_name r
  | some e => dictInsert idx img.relPath (stubRecord img e)

/-- `ImageCollectionLoader.build_index`: one dict entry per discovered
image file, keyed by `rec["file_name"]` (the path relative to the root)
for a built record and by the relative path for a stub. -/
def build_index (files : List ImageFile) : List (String × CanonicalRecord) :=
  files.foldl buildIndexStep []

/-- The projection `{k: rec.get(k) for k in keep_keys}` used by
`_index_fingerprint`, with the default
`keep_keys = ("file_name", "abs_path", "width", "height")`. -/
structure ProjEntry where
  file_name : String
  abs_path : String
  width : Option Nat
  height : Option Nat
deriving DecidableEq

/-- Project one canonical record to the fields the fingerprint reads. -/
def projectRecord (r : CanonicalRecord) : ProjEntry :=
  ⟨r.file_name, r.abs_path, r.width, r.height⟩

/-- The `(fname, small)` pairs collected by `_index_fingerprint`: the first
`max_items` index entries in enumeration (insertion) order, projected. -/
def fingerprintItems (maxItems : Nat) (index : List (String × CanonicalRecord)) :
    List (String × ProjEntry) :=
  (index.take maxItems).map (fun p => (p.1, projectRecord p.2))

/-- Minimal JSON string escaping (quote and backslash); sufficient for the
serializations compared here, which are only ever tested for equality. -/
def jsonEscape (s : String) : String :=
  String.join (s.toList.map (fun c =>
    if c = '\\' then "\\\\" else if c = '"' then "\\\"" else String.singleton c))

/-- A JSON string literal. -/
def jsonString (s : String) : String := "\"" ++ jsonEscape s ++ "\""

/-- `json.dumps` of an `int | None` value. -/
def jsonOptNat : Option Nat → String
  | none => "null"
  | some n => toString n

/-- `json.dumps(small, sort_keys=True)` for one projected entry: the four
keys in sorted order. -/
def serializeProj (p : ProjEntry) : String :=
  "\x7b\"abs_path\": " ++ jsonString p.abs_path ++
  ", \"file_name\": " ++ jsonString p.file_name ++
  ", \"height\": " ++ jsonOptNat p.height ++
  ", \"width\": " ++ jsonOptNat p.width ++ "\x7d"

/-- `json.dumps(items, sort_keys=True, default=str)`: a JSON array of
`[fname, small]` pairs. -/
def serializeItems (items : List (String × ProjEntry)) : String :=
  "[" ++ String.intercalate ", "
    (items.map (fun p => "[" ++ jsonString p.1 ++ ", " ++ serializeProj p.2 ++ "]")) ++ "]"

/-- `_index_fingerprint`: hash the stable serialization of a bounded sample
of the index.  The digest (`hashlib.sha256(...).hexdigest()` in the
source) is an arbitrary function of the serialized string, so every
statement below is proved for all digest functions `hash`. -/
def _index_fingerprint (hash : String → String) (maxItems : Nat)
    (index : List (String × CanonicalRecord)) : String :=
  hash (serializeItems (fingerprintItems maxItems index))

/-- The cache file key used by `run_audit`:
`f"{feat_name}_{sha256(f"{feat_name}:{index_fp}:{cfg_ser}").hexdigest()}"`. -/
def cacheKeyFor (hash : String → String) (featName fp cfgSer : String) : String :=
  featName ++ "_" ++ hash (featName ++ ":" ++ fp ++ ":" ++ cfgSer)

/-- Ordering of discovered files used to model Python's `sorted(files)`:
discovered paths are distinct, so sorting by the relative path yields
the same canonical enumeration. -/
def fileLe (a b : ImageFile) : Prop := a.relPath ≤ b.relPath

instance : DecidableRel fileLe := fun a b =>
  inferInstanceAs (Decidable (a.relPath ≤ b.relPath))

instance : IsTotal ImageFile fileLe := ⟨fun a b => le_total a.relPath b.relPath⟩

instance : IsTrans ImageFile fileLe := ⟨fun _ _ _ h1 h2 => le_trans h1 h2⟩

/-- `ImageCollectionLoader._list_image_files`: the filesystem enumerates
the discovered image files in an unspecified order (`iterdir` / `rglob`);
the source returns `sorted(files)`. -/
def _list_image_files (scan : List ImageFile) : List ImageFile :=
  scan.insertionSort fileLe

/-- `build_index` as a function of one filesystem enumeration pass. -/
def buildIndexFromScan (scan : List ImageFile) : List (String × CanonicalRecord) :=
  build_index (_list_image_files scan)

mutual

/-- `_sanitize_for_json` restricted to the values representable here: with
no numpy arrays, numpy scalars or `Path` objects present, the recursion
rebuilds dicts and lists and passes every JSON-serializable scalar
through the `json.dumps` round-trip unchanged. -/
def _sanitize_for_json : JVal → JVal
  | .obj fields => .obj (sanitizeFields fields)
  | .arr elems => .arr (sanitizeElems elems)
  | .null => .null
  | .bool b => .bool b
  | .int n => .int n
  | .num q => .num q
  | .str s => .str s

/-- The dict comprehension of `_sanitize_for_json`. -/
def sanitizeFields : List (String × JVal) → List (String × JVal)
  | [] => []
  | (k, v) :: rest => (k, _sanitize_for_json v) :: sanitizeFields rest

/-- The list comprehension of `_sanitize_for_json`. -/
def sanitizeElems : List JVal → List JVal
  | [] => []
  | v :: rest => _sanitize_for_json v :: sanitizeElems rest

end

/-- The `{"status": "error", "error": str(e), "traceback": ...}` value
returned by `_feature_worker` when the runner raises. -/
def workerErrorResult (e tb : String) : JVal :=
  .obj [("status", .str "error"), ("error", .str e), ("traceback", .str tb)]

/-- The `{"status": "no-runner", ...}` value returned when neither
`run_<name>` nor `run` is callable in the feature module. -/
def noRunnerResult (note : String) : JVal :=
  .obj [("status", .str "no-runner"), ("note", .str note)]

/-- `_feature_worker`: runs inside the worker process; a missing runner
yields the no-runner value, a raising runner (`Except.error`) yields the
structured error value, and a returned value is sanitized.  `tb` stands
for the formatted traceback string. -/
def _feature_worker (runner : Option (JVal → JVal → Except String JVal))
    (note tb : String) (index cfg : JVal) : JVal :=
  match runner with
  | none => noRunnerResult note
  | some run =>
      match run index cfg with
      | .ok out => _sanitize_for_json out
      | .error e => workerErrorResult e tb

/-- `res.get("status")` on a feature result. -/
def statusOf : JVal → Option JVal
  | .obj fields => assocLookup fields "status"
  | _ => none

/-- The on-disk cache: file name (feature name + digest) to stored payload.
`_cache_load` degrades any failure to a miss and `_cache_save` swallows
write failures, so the model keeps the successfully stored entries. -/
def Cache : Type := List (String × JVal)

/-- `_cache_load`: a lookup that returns the payload or a miss. -/
def _cache_load (cache : Cache) (key : String) : Option JVal :=
  assocLookup cache key

/-- `_cache_save`: best-effort write of the payload under the key. -/
def _cache_save (cache : Cache) (key : String) (payload : JVal) : Cache :=
  dictInsert cache key payload

/-- One feature submitted to the pool: its registry name, the serialized
config slice (`json.dumps(feat_cfg, sort_keys=True, default=str)`), and
the eventual result of its worker invocation — `none` when the worker
never finishes, `some v` when it completes with value `v`
(`_feature_worker` catches every exception, so a completing worker
always produces a value). -/
structure FeatureTask where
  name : String
  cfgSer : String
  outcome : Option JVal

/-- The submission loop of the parallel branch of `CVEDA.run_audit`: for
each feature in registry order, on a cache hit record the cached value
and do not submit; otherwise submit the worker to the pool.  Returns the
cache-hit results and the submitted tasks in order. -/
def submitPhase (hash : String → String) (fp : String) (cacheEnabled : Bool)
    (cache : Cache) (tasks : List FeatureTask) :
    List (String × JVal) × List FeatureTask :=
  tasks.foldl (fun acc t =>
    if cacheEnabled then
      match _cache_load cache (cacheKeyFor hash t.name fp t.cfgSer) with
      | some v => (acc.1 ++ [(t.name, v)], acc.2)
      | none => (acc.1, acc.2 ++ [t])
    else (acc.1, acc.2 ++ [t])) ([], [])

/-- One iteration of the collection loop: record the completed worker's
value in the features map and, when caching is enabled, persist it
(the source saves whatever `res` is, errors included). -/
def collectStep (hash : String → String) (fp : String) (cacheEnabled : Bool)
    (acc : List (String × JVal) × Cache) (t : FeatureTask) :
    List (String × JVal) × Cache :=
  let res := t.outcome.getD JVal.null
  (dictInsert acc.1 t.name res,
   if cacheEnabled then _cache_save acc.2 (cacheKeyFor hash t.name fp t.cfgSer) res
   else acc.2)

/-- The parallel feature phase of `CVEDA.run_audit`.  `order` is the order
in which `as_completed` yields the submitted futures (any permutation of
the submission list).  `as_completed` is given no timeout and
`fut.result(timeout=...)` is only ever applied to futures that have
already completed, so when any submitted worker never finishes the loop
never terminates and no features map is produced (`none`); the
per-future timeout branch of the source is unreachable. -/
def runFeaturesParallel (hash : String → String) (fp : String) (cacheEnabled : Bool)
    (cache : Cache) (tasks : List FeatureTask) (order : List FeatureTask) :
    Option (List (String × JVal) × Cache) :=
  let s := submitPhase hash fp cacheEnabled cache tasks
  if order.any (fun t => t.outcome.isNone) then none
  else some (order.foldl (collectStep hash fp cacheEnabled) (s.1, cache))

/-- The worker-pool size of the parallel branch:
`max_workers = max(1, int(cfg.get("max_workers", cpu_count())))` is
passed to `ProcessPoolExecutor` unchanged; the number of features about
to be submitted does not enter the computation. -/
def executorMaxWorkers (cfgMaxWorkers : Int) (featureCount : Nat) : Int :=
  max 1 cfgMaxWorkers

/-- The cache file key computed in `run_audit` for one feature task. -/
def taskKey (hash : String → String) (fp : String) (t : FeatureTask) : String :=
  cacheKeyFor hash t.name fp t.cfgSer

/-- The strict companion of `fileLe`. -/
def fileLt (a b : ImageFile) : Prop := a.relPath < b.relPath

/-- A feature whose runner always raises, as submitted by `run_audit`. -/
def isolationBadTask : FeatureTask :=
  ⟨"bad", "cfg",
   some (_feature_worker (some (fun _ _ => Except.error "boom")) "note" "tb" JVal.null JVal.null)⟩

/-- A feature whose runner always returns `{"status": "ok"}`. -/
def isolationGoodTask : FeatureTask :=
  ⟨"good", "cfg",
   some (_feature_worker (some (fun _ _ => Except.ok (JVal.obj [("status", JVal.str "ok")])))
     "note" "tb" JVal.null JVal.null)⟩

/-- A submitted feature whose worker never finishes. -/
def hangTask : FeatureTask := ⟨"hang", "cfg", none⟩

/-- A submitted feature whose worker completes with an ok result. -/
def okTask : FeatureTask := ⟨"good", "cfg", some (JVal.obj [("status", JVal.str "ok")])⟩

/-- A feature that executed and whose recorded result is the structured
error value produced by a raising runner. -/
def erroringTask : FeatureTask := ⟨"bad", "cfg", some (workerErrorResult "boom" "tb")⟩

/-- An image whose first candidate parses successfully (one VOC object)
and whose second candidate raises. -/
def cexMixedImage : ImageFile :=
  { relPath := "img1.jpg", absPath := "/data/img1.jpg", width := some 100, height := some 80,
    prep := none,
    candidates := [vocProcessCandidate [⟨some "car", [1, 2, 3, 4]⟩],
                   ⟨[], some "labels/broken.xml: parse error"⟩] }

/-- An image whose per-image wrapper raised unexpectedly. -/
def stubImage : ImageFile :=
  { relPath := "img2.jpg", absPath := "/data/img2.jpg", width := some 10, height := some 10,
    prep := some "unexpected error", candidates := [] }

/-- An image whose only candidate is a COCO JSON entry with integer
`category_id` 3 and bbox `[10, 5, 20, 20]`. -/
def cocoCexImage : ImageFile :=
  { relPath := "img1.jpg", absPath := "/data/img1.jpg", width := some 100, height := some 80,
    prep := none,
    candidates := [cocoProcessCandidate
      [⟨JVal.int 3, JVal.arr [JVal.int 10, JVal.int 5, JVal.int 20, JVal.int 20], JVal.null⟩]] }

/-- An image with one VOC candidate carrying a named and an unnamed object. -/
def vocImage : ImageFile :=
  { relPath := "img3.jpg", absPath := "/data/img3.jpg", width := some 100, height := some 80,
    prep := none,
    candidates := [vocProcessCandidate [⟨some "car", [1, 2, 3, 4]⟩, ⟨none, [5, 6, 7, 8]⟩]] }

/-- A small image file for the idempotence witness. -/
def scanImageA : ImageFile := ⟨"a.jpg", "/d/a.jpg", some 10, some 10, none, []⟩

/-- A second image file for the idempotence witness. -/
def scanImageB : ImageFile := ⟨"b.jpg", "/d/b.jpg", none, none, some "boom", []⟩

/-- A record with no annotations. -/
def projRecordPlain : CanonicalRecord :=
  ⟨"a.jpg", "/d/a.jpg", some 100, some 80, [], [], none⟩

/-- The same projected fields with different annotations and meta errors. -/
def projRecordNoisy : CanonicalRecord :=
  ⟨"a.jpg", "/d/a.jpg", some 100, some 80,
   [⟨JVal.str "car", [1, 2, 3, 4], JVal.null⟩], ["err"], none⟩

theorem assocLookup_append_of_not_mem {α : Type} (l₁ l₂ : List (String × α)) (k : String)
    (h : k ∉ l₁.map Prod.fst) : assocLookup (l₁ ++ l₂) k = assocLookup l₂ k := by
  induction l₁ with
  | nil => rfl
  | cons p rest ih =>
      obtain ⟨pk, pv⟩ := p
      simp only [List.map_cons, List.mem_cons, not_or] at h
      simp only [List.cons_append, assocLookup]
      rw [if_neg (fun hk => h.1 hk.symm)]
      exact ih h.2

theorem updateEntry_hit {α : Type} (k : String) (v : α) (pk : String) (pv : α)
    (h : pk = k) : updateEntry k v (pk, pv) = (k, v) := by
  unfold updateEntry
  exact if_pos h

theorem updateEntry_miss {α : Type} (k : String) (v : α) (pk : String) (pv : α)
    (h : ¬pk = k) : updateEntry k v (pk, pv) = (pk, pv) := by
  unfold updateEntry
  exact if_neg h

theorem assocLookup_map_update_other {α : Type} (l : List (String × α)) (k key : String) (v : α)
    (h : key ≠ k) :
    assocLookup (l.map (updateEntry k v)) key = assocLookup l key := by
  induction l with
  | nil => rfl
  | cons p rest ih =>
      obtain ⟨pk, pv⟩ := p
      rw [List.map_cons]
      by_cases hp : pk = k
      · rw [updateEntry_hit k v pk pv hp]
        show (if k = key then some v else assocLookup (rest.map (updateEntry k v)) key)
            = if pk = key then some pv else assocLookup rest key
        rw [if_neg (fun hk => h hk.symm), if_neg (fun hk : pk = key => h (hk ▸ hp)), ih]
      · rw [updateEntry_miss k v pk pv hp]
        show (if pk = key then some pv else assocLookup (rest.map (updateEntry k v)) key)
            = if pk = key then some pv else assocLookup rest key
        rw [ih]

theorem assocLookup_map_update_self {α : Type} (l : List (String × α)) (k : String) (v : α)
    (h : k ∈ l.map Prod.fst) :
    assocLookup (l.map (updateEntry k v)) k = some v := by
  induction l with
  | nil => simp at h
  | cons p rest ih =>
      obtain ⟨pk, pv⟩ := p
      rw [List.map_cons]
      by_cases hp : pk = k
      · rw [updateEntry_hit k v pk pv hp]
        show (if k = k then some v else assocLookup (rest.map (updateEntry k v)) k) = some v
        rw [if_pos rfl]
      · rw [updateEntry_miss k v pk pv hp]
        simp only [List.map_cons, List.mem_cons] at h
        have h' : k ∈ rest.map Prod.fst := by
          rcases h with h1 | h2
          · exact absurd h1.symm hp
          · exact h2
        show (if pk = k then some pv else assocLookup (rest.map (updateEntry k v)) k) = some v
        rw [if_neg hp, ih h']

theorem assocLookup_dictInsert_self {α : Type} (l : List (String × α)) (k : String) (v : α) :
    assocLookup (dictInsert l k v) k = some v := by
  unfold dictInsert
  by_cases hmem : k ∈ l.map Prod.fst
  · rw [if_pos hmem]
    exact assocLookup_map_update_self l k v hmem
  · rw [if_neg hmem, assocLookup_append_of_not_mem _ _ _ hmem]
    show (if k = k then some v else (none : Option α)) = some v
    rw [if_pos rfl]

theorem assocLookup_dictInsert_other {α : Type} (l : List (String × α)) (k k' : String) (v : α)
    (h : k' ≠ k) : assocLookup (dictInsert l k v) k' = assocLookup l k' := by
  unfold dictInsert
  by_cases hmem : k ∈ l.map Prod.fst
  · rw [if_pos hmem]
    exact assocLookup_map_update_other l k k' v h
  · rw [if_neg hmem]
    induction l with
    | nil =>
        show (if k = k' then some v else (none : Option α)) = none
        rw [if_neg (fun hk => h hk.symm)]
    | cons p rest ih =>
        obtain ⟨pk, pv⟩ := p
        simp only [List.map_cons, List.mem_cons, not_or] at hmem
        show (if pk = k' then some pv else assocLookup (rest ++ [(k, v)]) k')
            = if pk = k' then some pv else assocLookup rest k'
        by_cases hpk : pk = k'
        · rw [if_pos hpk, if_pos hpk]
        · rw [if_neg hpk, if_neg hpk]
          exact ih hmem.2

theorem dictInsert_fresh {α : Type} (l : List (String × α)) (k : String) (v : α)
    (h : k ∉ l.map Prod.fst) : dictInsert l k v = l ++ [(k, v)] := by
  unfold dictInsert
  exact if_neg h

theorem canonicalize_file_name (img : ImageFile) :
    (_canonicalize_annotations_for_image img).file_name = img.relPath := rfl

theorem buildIndexStep_eq (idx : List (String × CanonicalRecord)) (img : ImageFile) :
    buildIndexStep idx img = dictInsert idx img.relPath (recordFor img) := by
  unfold buildIndexStep recordFor
  cases img.prep <;> rfl

theorem build_index_go (files : List ImageFile) (acc : List (String × CanonicalRecord))
    (hdisj : ∀ img ∈ files, img.relPath ∉ acc.map Prod.fst)
    (hnd : (files.map ImageFile.relPath).Nodup) :
    files.foldl buildIndexStep acc =
      acc ++ files.map (fun img => (img.relPath, recordFor img)) := by
  induction files generalizing acc with
  | nil => simp
  | cons f rest ih =>
      rw [List.foldl_cons, buildIndexStep_eq,
        dictInsert_fresh _ _ _ (hdisj f (List.mem_cons_self f rest))]
      rw [List.map_cons, List.nodup_cons] at hnd
      rw [ih (acc ++ [(f.relPath, recordFor f)]) ?_ hnd.2]
      · simp
      · intro img hmem
        simp only [List.map_append, List.mem_append, List.map_cons, not_or]
        refine ⟨hdisj img (List.mem_cons_of_mem f hmem), ?_⟩
        intro hc
        simp only [List.map_nil, List.mem_singleton] at hc
        exact hnd.1 (hc ▸ List.mem_map_of_mem ImageFile.relPath hmem)

theorem build_index_eq (files : List ImageFile)
    (hnd : (files.map ImageFile.relPath).Nodup) :
    build_index files = files.map (fun img => (img.relPath, recordFor img)) := by
  unfold build_index
  rw [build_index_go files [] (by intro img _ h; simp at h) hnd]
  simp

theorem assocLookup_of_mem_nodup {α : Type} (l : List (String × α)) (k : String) (v : α)
    (hnd : (l.map Prod.fst).Nodup) (hmem : (k, v) ∈ l) : assocLookup l k = some v := by
  induction l with
  | nil => simp at hmem
  | cons p rest ih =>
      obtain ⟨pk, pv⟩ := p
      rw [List.map_cons, List.nodup_cons] at hnd
      rcases List.mem_cons.mp hmem with h1 | h2
      · obtain ⟨hk, hv⟩ := Prod.mk.injEq .. ▸ h1
        show (if pk = k then some pv else assocLookup rest k) = some v
        rw [if_pos hk.symm]
        exact congrArg some hv.symm
      · show (if pk = k then some pv else assocLookup rest k) = some v
        rw [if_neg ?_]
        · exact ih hnd.2 h2
        · intro hc
          subst hc
          have hm : (pk, v).1 ∈ rest.map Prod.fst := List.mem_map_of_mem Prod.fst h2
          exact hnd.1 hm

theorem submitPhase_step (ce : Bool) (acc : List (String × JVal) × List FeatureTask)
    (t : FeatureTask) (load : Option JVal) (hload : load = none) :
    (if ce then
      match load with
      | some v => (acc.1 ++ [(t.name, v)], acc.2)
      | none => (acc.1, acc.2 ++ [t])
     else (acc.1, acc.2 ++ [t])) = (acc.1, acc.2 ++ [t]) := by
  subst hload
  cases ce <;> rfl

theorem submitPhase_empty_cache (hash : String → String) (fp : String) (ce : Bool)
    (tasks : List FeatureTask) :
    submitPhase hash fp ce ([] : Cache) tasks = ([], tasks) := by
  unfold submitPhase
  have go : ∀ (ts : List FeatureTask) (acc : List (String × JVal) × List FeatureTask),
      ts.foldl (fun acc t =>
        if ce then
          match _cache_load ([] : Cache) (cacheKeyFor hash t.name fp t.cfgSer) with
          | some v => (acc.1 ++ [(t.name, v)], acc.2)
          | none => (acc.1, acc.2 ++ [t])
        else (acc.1, acc.2 ++ [t])) acc = (acc.1, acc.2 ++ ts) := by
    intro ts
    induction ts with
    | nil => intro acc; simp
    | cons t rest ih =>
        intro acc
        rw [List.foldl_cons]
        rw [submitPhase_step ce acc t (_cache_load ([] : Cache) (cacheKeyFor hash t.name fp t.cfgSer)) rfl]
        rw [ih]
        simp
  exact go tasks ([], [])

theorem collect_features_lookup_of_not_mem (hash : String → String) (fp : String) (ce : Bool)
    (ord : List FeatureTask) (acc : List (String × JVal) × Cache) (k : String)
    (h : k ∉ ord.map FeatureTask.name) :
    assocLookup (ord.foldl (collectStep hash fp ce) acc).1 k = assocLookup acc.1 k := by
  induction ord generalizing acc with
  | nil => rfl
  | cons t rest ih =>
      simp only [List.map_cons, List.mem_cons, not_or] at h
      rw [List.foldl_cons, ih _ h.2]
      show assocLookup (dictInsert acc.1 t.name (t.outcome.getD JVal.null)) k = assocLookup acc.1 k
      exact assocLookup_dictInsert_other _ _ _ _ h.1

theorem collect_features_lookup_mem (hash : String → String) (fp : String) (ce : Bool)
    (ord : List FeatureTask) (acc : List (String × JVal) × Cache) (t : FeatureTask)
    (hnd : (ord.map FeatureTask.name).Nodup) (hmem : t ∈ ord) :
    assocLookup (ord.foldl (collectStep hash fp ce) acc).1 t.name
      = some (t.outcome.getD JVal.null) := by
  induction ord generalizing acc with
  | nil => simp at hmem
  | cons u rest ih =>
      rw [List.map_cons, List.nodup_cons] at hnd
      rcases List.mem_cons.mp hmem with h1 | h2
      · subst h1
        rw [List.foldl_cons, collect_features_lookup_of_not_mem hash fp ce rest _ t.name hnd.1]
        show assocLookup (dictInsert acc.1 t.name (t.outcome.getD JVal.null)) t.name = _
        exact assocLookup_dictInsert_self _ _ _
      · rw [List.foldl_cons]
        exact ih _ hnd.2 h2

theorem collect_cache_of_ce_false (hash : String → String) (fp : String)
    (ord : List FeatureTask) (acc : List (String × JVal) × Cache) :
    (ord.foldl (collectStep hash fp false) acc).2 = acc.2 := by
  induction ord generalizing acc with
  | nil => rfl
  | cons t rest ih => rw [List.foldl_cons, ih]; rfl

theorem collect_cache_lookup_of_not_mem (hash : String → String) (fp : String)
    (ord : List FeatureTask) (acc : List (String × JVal) × Cache) (k : String)
    (h : k ∉ ord.map (taskKey hash fp)) :
    assocLookup (ord.foldl (collectStep hash fp true) acc).2 k = assocLookup acc.2 k := by
  induction ord generalizing acc with
  | nil => rfl
  | cons t rest ih =>
      simp only [List.map_cons, List.mem_cons, not_or] at h
      rw [List.foldl_cons, ih _ h.2]
      show assocLookup (_cache_save acc.2 (cacheKeyFor hash t.name fp t.cfgSer)
        (t.outcome.getD JVal.null)) k = assocLookup acc.2 k
      exact assocLookup_dictInsert_other _ _ _ _ h.1

theorem collect_cache_lookup_mem (hash : String → String) (fp : String)
    (ord : List FeatureTask) (acc : List (String × JVal) × Cache) (t : FeatureTask)
    (hnd : (ord.map (taskKey hash fp)).Nodup) (hmem : t ∈ ord) :
    assocLookup (ord.foldl (collectStep hash fp true) acc).2 (taskKey hash fp t)
      = some (t.outcome.getD JVal.null) := by
  induction ord generalizing acc with
  | nil => simp at hmem
  | cons u rest ih =>
      rw [List.map_cons, List.nodup_cons] at hnd
      rcases List.mem_cons.mp hmem with h1 | h2
      · subst h1
        rw [List.foldl_cons, collect_cache_lookup_of_not_mem hash fp rest _ _ hnd.1]
        show assocLookup (_cache_save acc.2 (cacheKeyFor hash t.name fp t.cfgSer)
          (t.outcome.getD JVal.null)) (taskKey hash fp t) = _
        exact assocLookup_dictInsert_self _ _ _
      · rw [List.foldl_cons]
        exact ih _ hnd.2 h2

theorem list_image_files_perm_invariant (scan₁ scan₂ : List ImageFile)
    (hperm : scan₁.Perm scan₂) (hnd : (scan₁.map ImageFile.relPath).Nodup) :
    _list_image_files scan₁ = _list_image_files scan₂ := by
  unfold _list_image_files
  haveI : IsAntisymm ImageFile fileLt :=
    ⟨fun a b h1 h2 => absurd h1 (not_lt.mpr (le_of_lt h2))⟩
  have p₁ := List.perm_insertionSort fileLe scan₁
  have p₂ := List.perm_insertionSort fileLe scan₂
  have strict : ∀ l : List ImageFile, List.Sorted fileLe l →
      (l.map ImageFile.relPath).Nodup → List.Sorted fileLt l := by
    intro l hs hn
    have hne : l.Pairwise (fun a b => a.relPath ≠ b.relPath) := List.pairwise_map.mp hn
    exact (hs.and hne).imp (fun h => lt_of_le_of_ne h.1 h.2)
  have hnd₁ : ((scan₁.insertionSort fileLe).map ImageFile.relPath).Nodup :=
    ((p₁.map ImageFile.relPath).nodup_iff).mpr hnd
  have hnd₂ : ((scan₂.insertionSort fileLe).map ImageFile.relPath).Nodup := by
    refine ((p₂.map ImageFile.relPath).nodup_iff).mpr ?_
    exact ((hperm.map ImageFile.relPath).nodup_iff).mp hnd
  exact List.eq_of_perm_of_sorted
    ((p₁.trans hperm).trans p₂.symm)
    (strict _ (List.sorted_insertionSort fileLe scan₁) hnd₁)
    (strict _ (List.sorted_insertionSort fileLe scan₂) hnd₂)

theorem assocLookup_sanitizeFields (l : List (String × JVal)) (k : String) :
    assocLookup (sanitizeFields l) k = (assocLookup l k).map _sanitize_for_json := by
  induction l with
  | nil => rfl
  | cons p rest ih =>
      obtain ⟨pk, pv⟩ := p
      simp only [sanitizeFields]
      by_cases hp : pk = k
      · show (if pk = k then some (_sanitize_for_json pv) else assocLookup (sanitizeFields rest) k)
            = (if pk = k then some pv else assocLookup rest k).map _sanitize_for_json
        rw [if_pos hp, if_pos hp]
        rfl
      · show (if pk = k then some (_sanitize_for_json pv) else assocLookup (sanitizeFields rest) k)
            = (if pk = k then some pv else assocLookup rest k).map _sanitize_for_json
        rw [if_neg hp, if_neg hp]
        exact ih

theorem statusOf_sanitize (v : JVal) :
    statusOf (_sanitize_for_json v) = (statusOf v).map _sanitize_for_json := by
  cases v with
  | obj fields =>
      simp only [_sanitize_for_json, statusOf]
      exact assocLookup_sanitizeFields fields "status"
  | null => rfl
  | bool b => rfl
  | int n => rfl
  | num q => rfl
  | str s => rfl
  | arr elems =>
      simp only [_sanitize_for_json, statusOf]
      rfl

theorem statusOf_sanitize_ok (v : JVal) (h : statusOf v = some (JVal.str "ok")) :
    statusOf (_sanitize_for_json v) = some (JVal.str "ok") := by
  rw [statusOf_sanitize, h]
  have hs : _sanitize_for_json (JVal.str "ok") = JVal.str "ok" := by
    simp only [_sanitize_for_json]
  simp only [Option.map]
  rw [hs]

theorem statusOf_workerErrorResult (e tb : String) :
    statusOf (workerErrorResult e tb) = some (JVal.str "error") := rfl

/-- C2: with every worker completing, the parallel phase terminates with a
features map; a feature whose runner raises is recorded with status
`"error"`, a feature whose runner returns an `"ok"`-status value is
recorded with status `"ok"`, and every registered feature has an entry. -/
theorem feature_isolation
    (hash : String → String) (fp : String) (ce : Bool)
    (tasks ord : List FeatureTask)
    (hnd : (tasks.map FeatureTask.name).Nodup)
    (hord : ord.Perm (submitPhase hash fp ce ([] : Cache) tasks).2)
    (hall : ∀ t ∈ tasks, t.outcome.isSome)
    (bad good : FeatureTask) (hbad : bad ∈ tasks) (hgood : good ∈ tasks)
    (em note tb : String) (index cfg gv : JVal)
    (hbadrun : bad.outcome =
      some (_feature_worker (some (fun _ _ => Except.error em)) note tb index cfg))
    (hgoodrun : good.outcome =
      some (_feature_worker (some (fun _ _ => Except.ok gv)) note tb index cfg))
    (hgok : statusOf gv = some (JVal.str "ok")) :
    ∃ out c, runFeaturesParallel hash fp ce ([] : Cache) tasks ord = some (out, c)
      ∧ (∃ v, assocLookup out bad.name = some v ∧ statusOf v = some (JVal.str "error"))
      ∧ (∃ v, assocLookup out good.name = some v ∧ statusOf v = some (JVal.str "ok"))
      ∧ ∀ t ∈ tasks, (assocLookup out t.name).isSome := by
  rw [submitPhase_empty_cache hash fp ce tasks] at hord
  have hmemiff : ∀ t : FeatureTask, t ∈ ord ↔ t ∈ tasks := fun t => hord.mem_iff
  have hordnd : (ord.map FeatureTask.name).Nodup :=
    ((hord.map FeatureTask.name).nodup_iff).mpr hnd
  have hnone : ord.any (fun t => t.outcome.isNone) = false := by
    rw [List.any_eq_false]
    intro t ht
    have := hall t ((hmemiff t).mp ht)
    simp [Option.isNone, Option.isSome] at this ⊢
    cases h : t.outcome with
    | none => rw [h] at this; simp at this
    | some v => simp
  unfold runFeaturesParallel
  rw [submitPhase_empty_cache hash fp ce tasks, hnone]
  simp only [Bool.false_eq_true, if_false]
  refine ⟨_, _, rfl, ?_, ?_, ?_⟩
  · refine ⟨_, collect_features_lookup_mem hash fp ce ord _ bad hordnd ((hmemiff bad).mpr hbad), ?_⟩
    rw [hbadrun]
    show statusOf (_feature_worker (some (fun _ _ => Except.error em)) note tb index cfg)
      = some (JVal.str "error")
    unfold _feature_worker
    exact statusOf_workerErrorResult em tb
  · refine ⟨_, collect_features_lookup_mem hash fp ce ord _ good hordnd ((hmemiff good).mpr hgood), ?_⟩
    rw [hgoodrun]
    show statusOf (_feature_worker (some (fun _ _ => Except.ok gv)) note tb index cfg)
      = some (JVal.str "ok")
    unfold _feature_worker
    exact statusOf_sanitize_ok gv hgok
  · intro t ht
    rw [collect_features_lookup_mem hash fp ce ord _ t hordnd ((hmemiff t).mpr ht)]
    rfl

/-- Witness for C2 at a concrete two-feature registry. -/
theorem feature_isolation_witness :
    ∃ out c, runFeaturesParallel id "fp" true ([] : Cache)
        [isolationBadTask, isolationGoodTask] [isolationBadTask, isolationGoodTask]
        = some (out, c)
      ∧ (∃ v, assocLookup out "bad" = some v ∧ statusOf v = some (JVal.str "error"))
      ∧ (∃ v, assocLookup out "good" = some v ∧ statusOf v = some (JVal.str "ok"))
      ∧ ∀ t ∈ [isolationBadTask, isolationGoodTask], (assocLookup out t.name).isSome :=
  feature_isolation id "fp" true
    [isolationBadTask, isolationGoodTask] [isolationBadTask, isolationGoodTask]
    (by decide)
    (by rw [submitPhase_empty_cache])
    (by
      intro t ht
      rcases List.mem_cons.mp ht with h | h
      · subst h; rfl
      · rcases List.mem_cons.mp h with h2 | h2
        · subst h2; rfl
        · simp at h2)
    isolationBadTask isolationGoodTask
    (List.Mem.head _) (List.Mem.tail _ (List.Mem.head _))
    "boom" "note" "tb" JVal.null JVal.null (JVal.obj [("status", JVal.str "ok")])
    rfl rfl rfl

/-- C3: when one submitted feature never finishes, the collection loop
(`as_completed` with no timeout; `fut.result(timeout=...)` is only
reached for already-completed futures) never terminates: no features
map is produced at all, so `{"status": "error", "error": "timeout"}` is
never recorded for the hung feature and the completed sibling's result
is never delivered either. -/
theorem feature_timeout_never_recorded :
    runFeaturesParallel id "fp" true ([] : Cache) [hangTask, okTask] [hangTask, okTask] = none
    ∧ hangTask.outcome = none ∧ (okTask.outcome.map statusOf) = some (some (JVal.str "ok")) :=
  ⟨by with_unfolding_all rfl, rfl, rfl⟩

/-- C4 counterexample: a run with caching enabled, an empty cache and one
feature whose recorded result has status `"error"` ends with that error
result written to the cache — the cache state for the feature's key is
not left unchanged. -/
theorem cache_error_write_cex :
    (runFeaturesParallel id "fp" true ([] : Cache) [erroringTask] [erroringTask]).map Prod.snd
      = some [(taskKey id "fp" erroringTask, workerErrorResult "boom" "tb")]
    ∧ statusOf (workerErrorResult "boom" "tb") = some (JVal.str "error")
    ∧ ([(taskKey id "fp" erroringTask, workerErrorResult "boom" "tb")] : Cache) ≠ ([] : Cache) := by
  refine ⟨by with_unfolding_all rfl, rfl, ?_⟩
  intro h
  exact List.cons_ne_nil _ _ h

/-- C4 (amended): with caching enabled, a cache entry is written exactly
for the features that actually executed (were not served from cache),
whatever their recorded result is — error results included; keys not
belonging to an executed feature are untouched. -/
theorem cache_write_iff_executed
    (hash : String → String) (fp : String) (cache : Cache) (tasks ord : List FeatureTask)
    (hord : ord.Perm (submitPhase hash fp true cache tasks).2)
    (hall : ∀ t ∈ ord, t.outcome.isSome)
    (hndk : (ord.map (taskKey hash fp)).Nodup) :
    ∃ out c, runFeaturesParallel hash fp true cache tasks ord = some (out, c)
      ∧ (∀ t ∈ ord, assocLookup c (taskKey hash fp t) = some (t.outcome.getD JVal.null))
      ∧ (∀ k, k ∉ ord.map (taskKey hash fp) → assocLookup c k = assocLookup cache k) := by
  have hnone : ord.any (fun t => t.outcome.isNone) = false := by
    rw [List.any_eq_false]
    intro t ht
    have h1 := hall t ht
    cases h : t.outcome with
    | none => rw [h] at h1; simp at h1
    | some v => simp [h]
  unfold runFeaturesParallel
  rw [hnone]
  simp only [Bool.false_eq_true, if_false]
  refine ⟨_, _, rfl, ?_, ?_⟩
  · intro t ht
    exact collect_cache_lookup_mem hash fp ord _ t hndk ht
  · intro k hk
    exact collect_cache_lookup_of_not_mem hash fp ord _ k hk

/-- Witness for the amended C4 at a concrete erroring feature. -/
theorem cache_write_iff_executed_witness :
    ∃ out c, runFeaturesParallel id "fp" true ([] : Cache) [erroringTask] [erroringTask]
        = some (out, c)
      ∧ (∀ t ∈ [erroringTask], assocLookup c (taskKey id "fp" t)
          = some (t.outcome.getD JVal.null))
      ∧ (∀ k, k ∉ [erroringTask].map (taskKey id "fp") →
          assocLookup c k = assocLookup ([] : Cache) k) :=
  cache_write_iff_executed id "fp" ([] : Cache) [erroringTask] [erroringTask]
    (by rw [submitPhase_empty_cache])
    (by intro t ht; rw [List.mem_singleton] at ht; subst ht; rfl)
    (by simp)

/-- C8 counterexample: with `max_workers = 8` configured and a single
feature to run, the pool is created with 8 workers, not
`min(maxWorkers, featureCount) = 1`. -/
theorem executor_workers_cex :
    executorMaxWorkers 8 1 = 8 ∧ min (8 : Int) 1 = 1
      ∧ executorMaxWorkers 8 1 ≠ min (8 : Int) 1 := by
  refine ⟨by norm_num [executorMaxWorkers], by norm_num, by norm_num [executorMaxWorkers]⟩

/-- C8 (amended): the pool passed to `ProcessPoolExecutor` is sized
`max(1, maxWorkers)`, independently of how many features are about to
be submitted. -/
theorem executor_workers_independent (mw : Int) (fc fc' : Nat) :
    executorMaxWorkers mw fc = max 1 mw
      ∧ executorMaxWorkers mw fc = executorMaxWorkers mw fc' := ⟨rfl, rfl⟩

/-- C5: for every COCO bbox that is a sequence of at least four
float-coercible values `[x, y, w, h]`, `_normalize_coco_bbox` returns
`[x, y, x+w, y+h]`; in particular `[10, 5, 20, 20] → [10, 5, 30, 25]`
(the witness). -/
theorem coco_bbox_conversion (a b c d : JVal) (rest : List JVal) (x y w h : Rat)
    (ha : pyFloat a = .ok x) (hb : pyFloat b = .ok y)
    (hc : pyFloat c = .ok w) (hd : pyFloat d = .ok h) :
    _normalize_coco_bbox (JVal.arr (a :: b :: c :: d :: rest)) = .ok [x, y, x + w, y + h] := by
  unfold _normalize_coco_bbox
  simp only [ha, hb, hc, hd]

/-- Witness for C5: the documented example `[10, 5, 20, 20] → [10, 5, 30, 25]`. -/
theorem coco_bbox_conversion_witness :
    _normalize_coco_bbox (JVal.arr [JVal.int 10, JVal.int 5, JVal.int 20, JVal.int 20])
      = .ok [10, 5, 30, 25] := by
  have h := coco_bbox_conversion (JVal.int 10) (JVal.int 5) (JVal.int 20) (JVal.int 20) []
    10 5 20 20 (by with_unfolding_all rfl) (by with_unfolding_all rfl)
    (by with_unfolding_all rfl) (by with_unfolding_all rfl)
  rw [h]
  norm_num

/-- C6: a YOLO line whose five leading whitespace tokens are a class token
and four float-coercible coordinates `cx cy w h`, for an image of known
size `(W, H)`, yields exactly one annotation with bbox
`[(cx-w/2)*W, (cy-h/2)*H, (cx+w/2)*W, (cy+h/2)*H]` and the class token
as its class. -/
theorem yolo_line_conversion (W H : Rat) (line clsTok t1 t2 t3 t4 : String)
    (rest : List String) (cx cy bw bh : Rat)
    (hs : pySplit line = clsTok :: t1 :: t2 :: t3 :: t4 :: rest)
    (h1 : parseDecimal t1 = some cx) (h2 : parseDecimal t2 = some cy)
    (h3 : parseDecimal t3 = some bw) (h4 : parseDecimal t4 = some bh) :
    yoloLineAnn W H line = some ⟨JVal.str clsTok,
      [JVal.num ((cx - bw / 2) * W), JVal.num ((cy - bh / 2) * H),
       JVal.num ((cx + bw / 2) * W), JVal.num ((cy + bh / 2) * H)], JVal.null⟩ := by
  unfold yoloLineAnn
  rw [hs]
  simp only [h1, h2, h3, h4]

/-- Witness for C6: the documented example, line `"0 0.5 0.5 0.4 0.4"` on a
100×100 image gives the canonical bbox `[30, 30, 70, 70]`. -/
theorem yolo_line_conversion_witness :
    yoloLineAnn 100 100 "0 0.5 0.5 0.4 0.4" = some ⟨JVal.str "0",
      [JVal.num 30, JVal.num 30, JVal.num 70, JVal.num 70], JVal.null⟩ := by
  have h := yolo_line_conversion 100 100 "0 0.5 0.5 0.4 0.4" "0" "0.5" "0.5" "0.4" "0.4" []
    (1/2) (1/2) (2/5) (2/5)
    (by with_unfolding_all rfl) (by with_unfolding_all rfl) (by with_unfolding_all rfl)
    (by with_unfolding_all rfl) (by with_unfolding_all rfl)
  rw [h]
  norm_num

theorem collect_candidates_fst (cs : List CandidateOutcome) (a : List RawAnn) (b : List String) :
    (cs.foldl (fun (acc : List RawAnn × List String) c =>
        (acc.1 ++ c.anns, acc.2 ++ c.err.toList)) (a, b)).1
      = a ++ (cs.map CandidateOutcome.anns).flatten := by
  induction cs generalizing a b with
  | nil => simp
  | cons c rest ih =>
      rw [List.foldl_cons, ih]
      simp

theorem collect_candidates_snd (cs : List CandidateOutcome) (a : List RawAnn) (b : List String) :
    (cs.foldl (fun (acc : List RawAnn × List String) c =>
        (acc.1 ++ c.anns, acc.2 ++ c.err.toList)) (a, b)).2
      = b ++ (cs.map (fun c => c.err.toList)).flatten := by
  induction cs generalizing a b with
  | nil => simp
  | cons c rest ih =>
      rw [List.foldl_cons, ih]
      simp

theorem canonicalize_annotations_eq (img : ImageFile) :
    (_canonicalize_annotations_for_image img).annotations
      = finalNormalize (img.candidates.map CandidateOutcome.anns).flatten
    ∧ (_canonicalize_annotations_for_image img).metaErrors
      = (img.candidates.map (fun c => c.err.toList)).flatten := by
  unfold _canonicalize_annotations_for_image
  constructor
  · show finalNormalize (img.candidates.foldl _ ([], [])).1 = _
    rw [collect_candidates_fst]
    rfl
  · show (img.candidates.foldl _ ([], [])).2 = _
    rw [collect_candidates_snd]
    rfl

/-- C1 (amended): for every discovered file list with distinct relative
paths, `build_index` returns exactly one entry per file, keyed by the
relative path; a record-build failure yields the stub record (empty
annotations, the message in `meta.error`); otherwise the entry is the
canonical record, which collects every candidate error message into
`meta.errors` while keeping the annotations contributed by the other
candidates — no failure removes an entry or escapes `build_index`. -/
theorem build_index_complete (files : List ImageFile)
    (hnd : (files.map ImageFile.relPath).Nodup) :
    ((build_index files).map Prod.fst = files.map ImageFile.relPath)
    ∧ (build_index files).length = files.length
    ∧ (∀ img ∈ files, ∀ e, img.prep = some e →
        assocLookup (build_index files) img.relPath = some (stubRecord img e)
        ∧ (stubRecord img e).annotations = [] ∧ (stubRecord img e).metaError = some e)
    ∧ (∀ img ∈ files, img.prep = none →
        assocLookup (build_index files) img.relPath
          = some (_canonicalize_annotations_for_image img)
        ∧ (_canonicalize_annotations_for_image img).metaErrors
            = (img.candidates.map (fun c => c.err.toList)).flatten) := by
  rw [build_index_eq files hnd]
  have hkeys : (files.map (fun img => (img.relPath, recordFor img))).map Prod.fst
      = files.map ImageFile.relPath := by
    rw [List.map_map]
    rfl
  have hlook : ∀ img ∈ files,
      assocLookup (files.map (fun img => (img.relPath, recordFor img))) img.relPath
        = some (recordFor img) := by
    intro img hmem
    exact assocLookup_of_mem_nodup _ _ _ (hkeys ▸ hnd)
      (List.mem_map_of_mem (fun img => (img.relPath, recordFor img)) hmem)
  refine ⟨hkeys, by rw [List.length_map], ?_, ?_⟩
  · intro img hmem e hp
    refine ⟨?_, rfl, rfl⟩
    rw [hlook img hmem]
    unfold recordFor
    rw [hp]
  · intro img hmem hp
    refine ⟨?_, (canonicalize_annotations_eq img).2⟩
    rw [hlook img hmem]
    unfold recordFor
    rw [hp]

/-- C1 counterexample: a record with a failed annotation candidate records
the message in `meta.errors` but keeps the annotations parsed from its
other candidate — the record's annotations are NOT empty, contradicting
the claim that such failures yield a record with empty annotations. -/
theorem build_index_candidate_error_cex :
    (_canonicalize_annotations_for_image cexMixedImage).metaErrors
      = ["labels/broken.xml: parse error"]
    ∧ (_canonicalize_annotations_for_image cexMixedImage).annotations ≠ []
    ∧ assocLookup (build_index [cexMixedImage]) "img1.jpg"
        = some (_canonicalize_annotations_for_image cexMixedImage) := by
  refine ⟨by with_unfolding_all rfl, ?_, by with_unfolding_all rfl⟩
  have hval : (_canonicalize_annotations_for_image cexMixedImage).annotations
      = [⟨JVal.str "car", [1, 2, 3, 4], JVal.null⟩] := by with_unfolding_all rfl
  rw [hval]
  exact List.cons_ne_nil _ _

/-- Witness for the amended C1 on a concrete two-file tree. -/
theorem build_index_complete_witness :
    (build_index [cexMixedImage, stubImage]).map Prod.fst = ["img1.jpg", "img2.jpg"]
    ∧ assocLookup (build_index [cexMixedImage, stubImage]) "img2.jpg"
        = some (stubRecord stubImage "unexpected error")
    ∧ (stubRecord stubImage "unexpected error").annotations = [] := by
  have h := build_index_complete [cexMixedImage, stubImage] (by decide)
  exact ⟨h.1, (h.2.2.1 stubImage (List.Mem.tail _ (List.Mem.head _)) "unexpected error" rfl).1,
    rfl⟩

/-- C9 counterexample: an annotation merged from a COCO JSON source
survives final normalization with the raw integer `category_id` as its
class — a value that is neither a string nor null (`_load_coco_json`'s
category-name map is never consulted). -/
theorem coco_class_not_string_cex :
    (_canonicalize_annotations_for_image cocoCexImage).annotations
      = [⟨JVal.int 3, [10, 5, 30, 25], JVal.null⟩]
    ∧ isStrOrNull (JVal.int 3) = false := ⟨by with_unfolding_all rfl, rfl⟩

theorem finalNormalize_preserves_cls (l : List RawAnn) (a : Ann)
    (ha : a ∈ finalNormalize l) : ∃ r ∈ l, r.cls = a.cls := by
  unfold finalNormalize at ha
  rcases List.mem_filterMap.mp ha with ⟨r, hr, heq⟩
  refine ⟨r, hr, ?_⟩
  split at heq
  · split at heq
    · rw [Option.some.injEq] at heq
      rw [← heq]
    · exact absurd heq (by simp)
  · exact absurd heq (by simp)

/-- C9 (amended): the VOC and YOLO branches only produce annotations whose
class is a string or null, and final normalization preserves the class,
so every surviving annotation of a record built from VOC/YOLO candidates
has a string-or-null class; COCO-merged annotations instead carry the
raw `category_id`, which need not be a string. -/
theorem class_string_or_null_voc_yolo :
    (∀ objs, ∀ a ∈ (vocProcessCandidate objs).anns, isStrOrNull a.cls = true)
    ∧ (∀ w h lines, ∀ a ∈ (yoloProcessCandidate w h lines).anns, isStrOrNull a.cls = true)
    ∧ (∀ img : ImageFile,
        (∀ c ∈ img.candidates, ∀ a ∈ c.anns, isStrOrNull a.cls = true) →
        ∀ a ∈ (_canonicalize_annotations_for_image img).annotations,
          isStrOrNull a.cls = true) := by
  have hvoc : ∀ objs, ∀ a ∈ (vocProcessCandidate objs).anns, isStrOrNull a.cls = true := by
    intro objs a ha
    unfold vocProcessCandidate at ha
    rcases List.mem_filterMap.mp ha with ⟨o, ho, heq⟩
    split at heq
    · rw [Option.some.injEq] at heq
      rw [← heq]
      cases o.name <;> rfl
    · exact absurd heq (by simp)
  have hyolo : ∀ w h lines, ∀ a ∈ (yoloProcessCandidate w h lines).anns,
      isStrOrNull a.cls = true := by
    intro w h lines a ha
    cases w with
    | none => cases h <;> simp [yoloProcessCandidate] at ha
    | some wv =>
        cases h with
        | none => simp [yoloProcessCandidate] at ha
        | some hv =>
            have ha' : a ∈ _load_yolo_txt_file (wv : Rat) (hv : Rat) lines := ha
            unfold _load_yolo_txt_file at ha'
            rcases List.mem_filterMap.mp ha' with ⟨line, hline, heq⟩
            unfold yoloLineAnn at heq
            split at heq
            · split at heq
              · rw [Option.some.injEq] at heq
                rw [← heq]
                rfl
              · exact absurd heq (by simp)
            · exact absurd heq (by simp)
  refine ⟨hvoc, hyolo, ?_⟩
  intro img hc a ha
  rw [(canonicalize_annotations_eq img).1] at ha
  rcases finalNormalize_preserves_cls _ a ha with ⟨r, hr, hcls⟩
  rcases List.mem_flatten.mp hr with ⟨anns, hanns, hra⟩
  rcases List.mem_map.mp hanns with ⟨c, hcmem, hceq⟩
  rw [← hcls]
  exact hc c hcmem r (hceq ▸ hra)

/-- Witness for the amended C9 at a concrete VOC-sourced record. -/
theorem class_string_or_null_witness :
    ∀ a ∈ (_canonicalize_annotations_for_image vocImage).annotations,
      isStrOrNull a.cls = true := by
  refine class_string_or_null_voc_yolo.2.2 vocImage ?_
  intro c hcmem a ha
  have hcm : c ∈ [vocProcessCandidate [⟨some "car", [1, 2, 3, 4]⟩, ⟨none, [5, 6, 7, 8]⟩]] := hcmem
  rw [List.mem_singleton] at hcm
  subst hcm
  exact class_string_or_null_voc_yolo.1 [⟨some "car", [1, 2, 3, 4]⟩, ⟨none, [5, 6, 7, 8]⟩] a ha

/-- C7: two successive filesystem enumerations of an unchanged tree list
the same files with the same per-file content, possibly in different
order; `build_index` sorts them, so both calls produce the same index
and hence equal fingerprints, for every digest function and sample
bound. -/
theorem build_index_fingerprint_idempotent (scan₁ scan₂ : List ImageFile)
    (hperm : scan₁.Perm scan₂) (hnd : (scan₁.map ImageFile.relPath).Nodup)
    (hash : String → String) (maxItems : Nat) :
    _index_fingerprint hash maxItems (buildIndexFromScan scan₁)
      = _index_fingerprint hash maxItems (buildIndexFromScan scan₂) := by
  unfold buildIndexFromScan
  rw [list_image_files_perm_invariant scan₁ scan₂ hperm hnd]

/-- Witness for C7: the same two files enumerated in either order give the
same fingerprint. -/
theorem build_index_fingerprint_idempotent_witness :
    _index_fingerprint id 1000 (buildIndexFromScan [scanImageA, scanImageB])
      = _index_fingerprint id 1000 (buildIndexFromScan [scanImageB, scanImageA]) :=
  build_index_fingerprint_idempotent [scanImageA, scanImageB] [scanImageB, scanImageA]
    (List.Perm.swap scanImageB scanImageA []) (by decide) id 1000

/-- C10: the fingerprint is a function of the projected
`(file_name, abs_path, width, height)` entries of the first `max_items`
index entries only; two indices agreeing on that projection have equal
fingerprints under every digest, and hence equal derived cache keys. -/
theorem fingerprint_depends_only_on_projection
    (i₁ i₂ : List (String × CanonicalRecord)) (n : Nat)
    (hproj : fingerprintItems n i₁ = fingerprintItems n i₂) :
    (∀ hash : String → String, _index_fingerprint hash n i₁ = _index_fingerprint hash n i₂)
    ∧ (∀ (hash keyHash : String → String) (featName cfgSer : String),
        cacheKeyFor keyHash featName (_index_fingerprint hash n i₁) cfgSer
          = cacheKeyFor keyHash featName (_index_fingerprint hash n i₂) cfgSer) := by
  have hfp : ∀ hash : String → String,
      _index_fingerprint hash n i₁ = _index_fingerprint hash n i₂ := by
    intro hash
    unfold _index_fingerprint
    rw [hproj]
  exact ⟨hfp, fun hash kh fn cs => by rw [hfp hash]⟩

/-- Witness for C10: changing a record's annotations and meta errors leaves
fingerprint and cache keys unchanged. -/
theorem fingerprint_projection_witness :
    (∀ hash : String → String,
      _index_fingerprint hash 1000 [("a.jpg", projRecordPlain)]
        = _index_fingerprint hash 1000 [("a.jpg", projRecordNoisy)])
    ∧ (∀ (hash keyHash : String → String) (featName cfgSer : String),
        cacheKeyFor keyHash featName
            (_index_fingerprint hash 1000 [("a.jpg", projRecordPlain)]) cfgSer
          = cacheKeyFor keyHash featName
            (_index_fingerprint hash 1000 [("a.jpg", projRecordNoisy)]) cfgSer) :=
  fingerprint_depends_only_on_projection
    [("a.jpg", projRecordPlain)] [("a.jpg", projRecordNoisy)] 1000 rfl
